import Mathlib

/-!
Verification of the Context Retrieval & Memory Ranking Engine of the Sakura AI
repository. The engine lives in the chat controller source file: the retrieval
entry point `retrieveUserContext`, the update entry point `updateUserContext`,
the signal extractors `detectMood`, `extractPreferences`, `extractEntities`,
`extractTopics`, and the global aggregator `updateGlobalContext`.

Modelling conventions:
* Text is a list of characters (`Text := List Char`); JavaScript string
  operations (`toLowerCase`, `includes`, `trim`, regex scanning) are modelled
  character by character.  Emoji literals that the source stores as strings are
  embedded by Unicode codepoint.
* Instants (`Date`) are modelled as natural numbers; `Date.now()` / `new
  Date()` is passed in explicitly as a `now : Nat` argument.
* The Mongo document store is modelled by explicit state passing: read results
  are `Option` values, a thrown store error is an explicit boolean input
  (the controller wraps everything in try/catch), and an update is a function
  from the stored profile to the stored profile after the write (including the
  follow-up retention write).
* The TF-IDF similarity measure (library `natural`, floating point logarithms)
  is modelled as an abstract per-turn score `scores : Nat → Int`: `scores i` is
  the measure the code computes for the document of history turn `i` (document
  index `i + 1` in the code, document 0 being the query).  Every behaviour of
  the merger is a function of the relative order of these scores only, which
  is exactly what the comparator `(a, b) => b.score - a.score` observes.
* `Array.prototype.sort` (stable in the Node runtime used) is modelled by the
  stable `List.insertionSort` with the non-strict relation induced by the
  comparator; for a consistent numeric comparator every stable sort produces
  the same list, so the choice of stable algorithm is immaterial.
-/

namespace Sakura

/-- A text value: a JavaScript string modelled as its list of characters. -/
abbrev Text := List Char

/-- Embed a Lean string literal as a `Text`. -/
def txt (s : String) : Text := s.toList

/-- JavaScript `toLowerCase`, character by character (ASCII-faithful). -/
def lowerTxt (s : Text) : Text := s.map Char.toLower

/-- Substring test: JavaScript `hay.includes(needle)`. -/
def hasInfix (needle : Text) : Text → Bool
  | [] => needle.isEmpty
  | c :: t => needle.isPrefixOf (c :: t) || hasInfix needle t

/-- A word character in the sense of the JavaScript regex class `\w`,
i.e. `[A-Za-z0-9_]`. -/
def isWordChar (c : Char) : Bool := c.isAlphanum || c = '_'

/-- Whitespace in the sense of the JavaScript regex class `\s`. -/
def jsSpace (c : Char) : Bool :=
  c = ' ' || c = Char.ofNat 9 || c = Char.ofNat 10 || c = Char.ofNat 11 ||
  c = Char.ofNat 12 || c = Char.ofNat 13 || c = Char.ofNat 0xA0 ||
  c = Char.ofNat 0x1680 || (0x2000 ≤ c.toNat && c.toNat ≤ 0x200A) ||
  c = Char.ofNat 0x2028 || c = Char.ofNat 0x2029 || c = Char.ofNat 0x202F ||
  c = Char.ofNat 0x205F || c = Char.ofNat 0x3000 || c = Char.ofNat 0xFEFF

/-- JavaScript `String.prototype.trim`: strip `\s` characters from both ends. -/
def trimText (s : Text) : Text :=
  ((s.dropWhile jsSpace).reverse.dropWhile jsSpace).reverse

/-- An entry of the mood keyword table of `detectMood`. -/
structure MoodEntry where
  name : Text
  keywords : List Text
  emojis : List Text
  /-- Initial accumulator value, scaled by 10 (the source uses `0` for every
  category except `neutral`, which starts at `0.2`). -/
  base : Nat
deriving DecidableEq, Repr

/-- The apostrophe character, used by one verb alternative of the dislikes pattern. -/
def apos : Char := Char.ofNat 39

/-- Emoji list of the `affectionate` mood category, by codepoint. -/
def emojisAffectionate : List Text :=
  [[Char.ofNat 0x1F60D], [Char.ofNat 0x1F618], [Char.ofNat 0x2764, Char.ofNat 0xFE0F],
   [Char.ofNat 0x1F495], [Char.ofNat 0x1F496], [Char.ofNat 0x1F493],
   [Char.ofNat 0x1F497], [Char.ofNat 0x1F49E], [Char.ofNat 0x1F498]]

/-- Emoji list of the `happy` mood category, by codepoint. -/
def emojisHappy : List Text :=
  [[Char.ofNat 0x1F60A], [Char.ofNat 0x1F603], [Char.ofNat 0x1F604],
   [Char.ofNat 0x1F601], [Char.ofNat 0x1F642], [Char.ofNat 0x1F600],
   [Char.ofNat 0x1F638], [Char.ofNat 0x1F63A], [Char.ofNat 0x1F973]]

/-- Emoji list of the `sad` mood category, by codepoint. -/
def emojisSad : List Text :=
  [[Char.ofNat 0x1F614], [Char.ofNat 0x1F622], [Char.ofNat 0x1F62D],
   [Char.ofNat 0x1F625], [Char.ofNat 0x1F63F], [Char.ofNat 0x1F613],
   [Char.ofNat 0x1F97A], [Char.ofNat 0x1F61E], [Char.ofNat 0x1F61F]]

/-- Emoji list of the `upset` mood category, by codepoint. -/
def emojisUpset : List Text :=
  [[Char.ofNat 0x1F620], [Char.ofNat 0x1F621], [Char.ofNat 0x1F92C],
   [Char.ofNat 0x1F624], [Char.ofNat 0x1F612], [Char.ofNat 0x1F611],
   [Char.ofNat 0x1F63E], [Char.ofNat 0x1F4A2], [Char.ofNat 0x1F47F]]

/-- Emoji list of the `bored` mood category, by codepoint. -/
def emojisBored : List Text :=
  [[Char.ofNat 0x1F612], [Char.ofNat 0x1F644], [Char.ofNat 0x1F610],
   [Char.ofNat 0x1F611], [Char.ofNat 0x1F634], [Char.ofNat 0x1F4A4],
   [Char.ofNat 0x1F971], [Char.ofNat 0x1F62A]]

/-- Emoji list of the `flirty` mood category, by codepoint. -/
def emojisFlirty : List Text :=
  [[Char.ofNat 0x1F60F], [Char.ofNat 0x1F609], [Char.ofNat 0x1F525],
   [Char.ofNat 0x1F48B], [Char.ofNat 0x1F608], [Char.ofNat 0x1F440],
   [Char.ofNat 0x1F924], [Char.ofNat 0x1F4A6], [Char.ofNat 0x1F445]]

/-- The ordered mood table of `detectMood` (`moodKeywords` in the source, in
declaration order).  All scores are scaled by 10: a keyword match adds `0.2`
(here `2`), an emoji match adds `0.3` (here `3`), `neutral` starts at `0.2`
(here `2`); these sums are exact in binary floating point at every comparison
the claims exercise, so the integer scaling preserves the arg-max. -/
def moodTable : List MoodEntry :=
  [⟨txt "affectionate",
    [txt "love", txt "miss", txt "adore", txt "care", txt "xoxo", txt "heart",
     txt "darling", txt "babe", txt "honey"], emojisAffectionate, 0⟩,
   ⟨txt "happy",
    [txt "happy", txt "glad", txt "excited", txt "yay", txt "woohoo", txt "joy",
     txt "delighted", txt "wonderful", txt "amazing"], emojisHappy, 0⟩,
   ⟨txt "sad",
    [txt "sad", txt "upset", txt "tired", txt "exhausted", txt "depressed",
     txt "unhappy", txt "miss", txt "lonely", txt "down"], emojisSad, 0⟩,
   ⟨txt "upset",
    [txt "angry", txt "annoyed", txt "frustrated", txt "mad", txt "furious",
     txt "irritated", txt "hate", txt "rage", txt "fed up"], emojisUpset, 0⟩,
   ⟨txt "bored",
    [txt "bored", txt "whatever", txt "meh", txt "dull", txt "uninterested",
     txt "tedious", txt "mundane", txt "bland"], emojisBored, 0⟩,
   ⟨txt "flirty",
    [txt "flirt", txt "sexy", txt "hot", txt "cute", txt "beautiful",
     txt "handsome", txt "attractive", txt "kiss", txt "hug"], emojisFlirty, 0⟩,
   ⟨txt "neutral", [], [], 2⟩]

/-- Accumulated score of one mood category: base score plus `0.2` (scaled: 2)
per keyword found as a substring of the lowercased message plus `0.3`
(scaled: 3) per emoji found as a substring of the raw message. -/
def moodScore (lowerMsg rawMsg : Text) (e : MoodEntry) : Nat :=
  e.base + 2 * e.keywords.countP (fun k => hasInfix k lowerMsg)
         + 3 * e.emojis.countP (fun k => hasInfix k rawMsg)

/-- Model of `detectMood` from the source: score every category of the ordered table,
then keep the first strict maximum, starting from `highestScore = 0`,
`detectedMood = "neutral"`. -/
def detectMood (message : Text) : Text :=
  let lowerMsg := lowerTxt message
  (moodTable.foldl
    (fun acc e =>
      let s := moodScore lowerMsg message e
      if acc.1 < s then (s, e.name) else acc)
    (0, txt "neutral")).2

/-- Word tokenization: the `natural` `WordTokenizer` splits on runs of
non-word characters and discards empty tokens (spec §4.1: "tokenize on word
boundaries"; the library is an external dependency, modelled from its
documented behaviour). -/
def tokenizeAux : Text → Text → List Text
  | [], acc => if acc.isEmpty then [] else [acc.reverse]
  | c :: t, acc =>
    if isWordChar c then tokenizeAux t (c :: acc)
    else if acc.isEmpty then tokenizeAux t []
    else acc.reverse :: tokenizeAux t []

/-- Word tokenization (see `tokenizeAux`). -/
def tokenize (s : Text) : List Text := tokenizeAux s []

/-- Keep-first deduplication, the effect of `[...new Set(list)]`. -/
def dedupKeepFirst (l : List Text) : List Text :=
  l.foldl (fun acc x => if x ∈ acc then acc else acc ++ [x]) []

/-- The fixed list of capitalized function words excluded by
`extractEntities` (the source lists For twice; kept verbatim). -/
def entityStopWords : List Text :=
  [txt "I", txt "A", txt "The", txt "An", txt "And", txt "But", txt "Or",
   txt "For", txt "Nor", txt "As", txt "At", txt "By", txt "For", txt "From",
   txt "In", txt "Into", txt "Near", txt "Of", txt "On", txt "To", txt "With"]

/-- Model of `extractEntities` from the source: tokenize, keep tokens of length `> 3`
whose first character equals its own uppercase form and differs from its own
lowercase form, drop the stop words, deduplicate via `Set` semantics. -/
def extractEntities (text : Text) : List Text :=
  let words := tokenize text
  let potentialEntities := words.filter (fun w =>
    match w with
    | [] => false
    | c :: _ =>
      decide (w.length > 3) && (c = c.toUpper) && !(c = c.toLower) &&
      !(entityStopWords.contains w))
  dedupKeepFirst potentialEntities

/-- Whole-word occurrence scan, auxiliary to `wholeWord`: `prevIsWord` records
whether the character before the current suffix is a word character. -/
def wholeWordAux (kw : Text) : Bool → Text → Bool
  | _, [] => false
  | prevIsWord, c :: t =>
    (!prevIsWord && kw.isPrefixOf (c :: t) &&
      (match (c :: t).drop kw.length with
       | [] => true
       | d :: _ => !isWordChar d)) ||
    wholeWordAux kw (isWordChar c) t

/-- Whole-word match: the JavaScript regex test `\b<kw>\b` on `s` (the
keywords are alphabetic, so `\b` demands a non-word character or a string end
on both sides of an occurrence). -/
def wholeWord (kw s : Text) : Bool := wholeWordAux kw false s

/-- The topic keyword table of `extractTopics` (`topicKeywords` in the
source, in declaration order). -/
def topicKeywords : List (Text × List Text) :=
  [(txt "relationships",
    [txt "love", txt "boyfriend", txt "girlfriend", txt "dating",
     txt "relationship", txt "crush", txt "married", txt "wedding"]),
   (txt "work",
    [txt "job", txt "work", txt "boss", txt "office", txt "career",
     txt "promotion", txt "meeting", txt "salary", txt "interview"]),
   (txt "school",
    [txt "school", txt "class", txt "homework", txt "study", txt "exam",
     txt "teacher", txt "professor", txt "assignment", txt "college"]),
   (txt "entertainment",
    [txt "movie", txt "game", txt "music", txt "show", txt "book",
     txt "concert", txt "series", txt "tv", txt "anime", txt "stream"]),
   (txt "feelings",
    [txt "feel", txt "happy", txt "sad", txt "angry", txt "excited",
     txt "anxious", txt "nervous", txt "proud", txt "joy", txt "afraid"]),
   (txt "health",
    [txt "sick", txt "health", txt "doctor", txt "exercise", txt "gym",
     txt "workout", txt "diet", txt "pain", txt "sleep", txt "tired"]),
   (txt "technology",
    [txt "phone", txt "computer", txt "laptop", txt "app", txt "software",
     txt "tech", txt "device", txt "internet", txt "wifi", txt "online"]),
   (txt "food",
    [txt "food", txt "eat", txt "restaurant", txt "meal", txt "cook",
     txt "dinner", txt "lunch", txt "breakfast", txt "recipe", txt "snack"]),
   (txt "travel",
    [txt "travel", txt "trip", txt "vacation", txt "flight", txt "hotel",
     txt "journey", txt "visit", txt "abroad", txt "country", txt "city"])]

/-- Model of `extractTopics` from the source: empty text yields no topics; otherwise a
topic is flagged when at least 2 of its keywords occur as whole words in the
lowercased text, or exactly 1 does and the text is shorter than 100
characters. -/
def extractTopics (text : Text) : List Text :=
  if text = [] then []
  else
    let lowerText := lowerTxt text
    topicKeywords.foldl
      (fun foundTopics p =>
        let matchCount := p.2.countP (fun kw => wholeWord kw lowerText)
        if matchCount ≥ 2 || (matchCount = 1 && decide (text.length < 100)) then
          foundTopics ++ [p.1]
        else foundTopics)
      []

/-- Any character matched by the regex metacharacter `.` (without the `s`
flag): everything except the line terminators. -/
def dotChar (c : Char) : Bool :=
  !(c = Char.ofNat 10 || c = Char.ofNat 13 || c = Char.ofNat 0x2028 ||
    c = Char.ofNat 0x2029)

/-- A character matched by the terminator group `(?:\.|\!|\,|\s)` of the
preference patterns. -/
def isTermCh (c : Char) : Bool := c = '.' || c = '!' || c = ',' || jsSpace c

/-- Whether a lazy capture of exactly `n` characters succeeds at the front of
`s`: `n` characters are available, all match `.`, and the capture is followed
by a terminator character or the end of the string. -/
def capAt (s : Text) (n : Nat) : Bool :=
  decide ((s.take n).length = n) && (s.take n).all dotChar &&
    (match s.drop n with
     | [] => true
     | c :: _ => isTermCh c)

/-- The lazy capture `(.{3,30}?)(?:\.|\!|\,|\s|$)`: the shortest length in
`[3, 30]` whose capture is followed by a terminator or the string end wins.
Returns the capture and the remaining text after the full match (the
terminator character, when present, is consumed by the match). -/
def lazyCapture (s : Text) : Option (Text × Text) :=
  match (List.range' 3 28).find? (capAt s) with
  | none => none
  | some n =>
    some (s.take n,
      match s.drop n with
      | [] => []
      | _ :: t => t)

/-- Strip a literal from the front of the text. -/
def stripLit (lit : Text) (s : Text) : Option Text :=
  if lit.isPrefixOf s then some (s.drop lit.length) else none

/-- Strip an alternation `(?:a|b|...)` from the front of the text, trying the
alternatives in order.  Every alternation in the preference patterns is
prefix-exclusive (no two alternatives can match at the same position), so
committing to the first prefix match is exactly the regex backtracking
semantics. -/
def stripAlt (alts : List Text) (s : Text) : Option Text :=
  match alts with
  | [] => none
  | a :: rest =>
    match stripLit a s with
    | some r => some r
    | none => stripAlt rest s

/-- Strip one literal space (the separator inside the preference patterns). -/
def stripSpace (s : Text) : Option Text :=
  match s with
  | c :: t => if c = ' ' then some t else none
  | [] => none

/-- Match `(?:<pronoun>) (?:<verb>) (.{3,30}?)(?:\.|\!|\,|\s|$)` at the given
position; on success return the capture and the text after the match. -/
def matchSimpleAt (pronouns verbs : List Text) (s : Text) :
    Option (Text × Text) := do
  let r1 ← stripAlt pronouns s
  let r2 ← stripSpace r1
  let r3 ← stripAlt verbs r2
  let r4 ← stripSpace r3
  lazyCapture r4

/-- First defined value of `f` over the list, in order. -/
def firstSome (ns : List Nat) (f : Nat → Option α) : Option α :=
  match ns with
  | [] => none
  | n :: t =>
    match f n with
    | some r => some r
    | none => firstSome t f

/-- Continuation of the favorites pattern after `(?:my|our) favorite ` for a
fixed length `n` of the first lazy group: `n` `.`-characters, a space,
`(?:is|are)`, a space, then the second lazy capture with its terminator.
Returns the FIRST capture (the source uses `match[1]`) and the rest. -/
def favTail (r2 : Text) (n : Nat) : Option (Text × Text) :=
  if decide ((r2.take n).length = n) && (r2.take n).all dotChar then do
    let r3 ← stripSpace (r2.drop n)
    let r4 ← stripAlt [txt "is", txt "are"] r3
    let r5 ← stripSpace r4
    let (_, rest) ← lazyCapture r5
    some (r2.take n, rest)
  else none

/-- Match the favorites pattern
`(?:my|our) favorite (.{3,30}?) (?:is|are) (.{3,30}?)(?:\.|\!|\,|\s|$)` at the
given position.  The first lazy group prefers the shortest length for which
the whole continuation (including the second lazy group) matches. -/
def matchFavAt (s : Text) : Option (Text × Text) := do
  let r1 ← stripAlt [txt "my", txt "our"] s
  let r2 ← stripLit (txt " favorite ") r1
  firstSome (List.range' 3 28) (favTail r2)

/-- Leftmost match: try the position matcher at every successive start
position, as `RegExp.exec` does. -/
def findMatch (mAt : Text → Option (Text × Text)) : Text → Option (Text × Text)
  | [] => mAt []
  | c :: t =>
    match mAt (c :: t) with
    | some r => some r
    | none => findMatch mAt t

/-- The `while ((match = pattern.exec(text)) !== null)` loop: collect the
captures of successive matches, each search resuming after the previous
match.  Every match of these patterns consumes at least one character, so a
fuel of `length + 1` never runs out before `exec` returns `null`. -/
def collectCaptures (mAt : Text → Option (Text × Text)) : Nat → Text → List Text
  | 0, _ => []
  | fuel + 1, s =>
    match findMatch mAt s with
    | none => []
    | some (cap, rest) => cap :: collectCaptures mAt fuel rest

/-- One iteration of the capture loop of `extractPreferences`: trim the
capture and push it when it is nonempty, longer than 2 characters and not yet
present. -/
def pushStep (acc : List Text) (cap : Text) : List Text :=
  let preference := trimText cap
  if preference ≠ [] ∧ preference.length > 2 ∧ preference ∉ acc then
    acc ++ [preference]
  else acc

/-- The capture loop of `extractPreferences` over all collected captures. -/
def pushCaptures (caps : List Text) : List Text := caps.foldl pushStep []

/-- Run one preference pattern over the combined text.  The category key is
created in the result object as soon as a match is found (even when every
capture is then filtered out), hence `some` exactly when at least one match
occurred. -/
def runPrefPattern (mAt : Text → Option (Text × Text)) (s : Text) :
    Option (List Text) :=
  match collectCaptures mAt (s.length + 1) s with
  | [] => none
  | caps => some (pushCaptures caps)

/-- The pronoun alternation `(?:i|me|my|we)` of the likes/dislikes patterns. -/
def pronounAlts : List Text := [txt "i", txt "me", txt "my", txt "we"]

/-- The verb alternation `(?:like|love|enjoy|prefer)` of the likes pattern. -/
def likeVerbs : List Text := [txt "like", txt "love", txt "enjoy", txt "prefer"]

/-- The verb alternation of the dislikes pattern: hate, dislike, and the two
negated like forms. -/
def dislikeVerbs : List Text :=
  [txt "hate", txt "dislike", txt "don" ++ [apos] ++ txt "t like",
   txt "do not like"]

/-- The extracted preferences object: each category key is present (`some`)
exactly when its pattern matched at least once. -/
structure Preferences where
  likes : Option (List Text)
  dislikes : Option (List Text)
  favorites : Option (List Text)
deriving DecidableEq, Repr

/-- Model of `extractPreferences` from the source: run the three patterns over the
lowercased `message + " " + response`. -/
def extractPreferences (message response : Text) : Preferences :=
  let combinedText := lowerTxt (message ++ [' '] ++ response)
  { likes := runPrefPattern (matchSimpleAt pronounAlts likeVerbs) combinedText
    dislikes :=
      runPrefPattern (matchSimpleAt pronounAlts dislikeVerbs) combinedText
    favorites := runPrefPattern matchFavAt combinedText }

/-- Truthiness of `Object.keys(extractedPreferences).length > 0` in the source. -/
def prefHasAny (p : Preferences) : Bool :=
  p.likes.isSome || p.dislikes.isSome || p.favorites.isSome

/-- One stored conversation exchange.  `message`/`response`/`timestamp` are
optional because the code tolerates their absence (`conv.message || ''`,
`conv.timestamp || ...`). -/
structure ConversationTurn where
  message : Option Text
  response : Option Text
  timestamp : Option Nat
  entities : List Text
deriving DecidableEq, Repr

/-- A stored user profile document.  Array fields default to `[]` in the
store, so they are plain lists; scalar fields are optional and the code
substitutes defaults (`|| ...`) where it reads them. -/
structure UserProfile where
  username : Option Text
  mood : Option Text
  preferences : Option Preferences
  contextTokens : List Text
  lastBotResponse : Option Text
  lastActive : Option Nat
  conversationHistory : List ConversationTurn
deriving DecidableEq, Repr

/-- The stored singleton global profile document. -/
structure GlobalProfile where
  botPersonality : Option Text
  recentGlobalTopics : Option (List Text)
  lastUpdate : Option Nat
deriving DecidableEq, Repr

/-- The `userInfo` object assembled by the read path.  On the absent-profile
early return only `mood` is populated (`{ userId, mood: "neutral" }`); the
remaining keys are absent (`none`). -/
structure UserInfo where
  mood : Text
  username : Option Text
  preferences : Option Preferences
  lastActive : Option Nat
  contextTokens : Option (List Text)
deriving DecidableEq, Repr

/-- The transient result of the retrieval entry point.  `botPersonality` and
`globalTopics` are optional: the absent-profile early return carries neither
(it has a `globalPersonality: null` key instead), and the catch-branch result
carries no `globalTopics`. -/
structure RetrievalResult where
  userInfo : UserInfo
  relevantHistory : List ConversationTurn
  recentHistory : List ConversationTurn
  botPersonality : Option Text
  globalTopics : Option (List Text)
  previousBotMessage : Option Text
deriving DecidableEq, Repr

/-- JavaScript `array.slice(-n)`: the trailing `n` elements (everything when
the list is shorter). -/
def sliceLast (n : Nat) (l : List α) : List α := l.drop (l.length - n)

/-- The identity of a turn used for deduplication: the code builds the string
of the message (missing → empty) joined with the timestamp (missing → now);
modelled as the pair of the two components. -/
def convId (now : Nat) (t : ConversationTurn) : Text × Nat :=
  (t.message.getD [], t.timestamp.getD now)

/-- The sort key of the chronological sort,
`new Date(a.timestamp || 0)`: a missing timestamp sorts as the epoch. -/
def tsKey (t : ConversationTurn) : Nat := t.timestamp.getD 0

/-- One step of the dedup loop of the merger: append the turn (and record its
identity) unless the identity was already included. -/
def dedupStep (now : Nat)
    (acc : List ConversationTurn × List (Text × Nat)) (conv : ConversationTurn) :
    List ConversationTurn × List (Text × Nat) :=
  if convId now conv ∈ acc.2 then acc
  else (acc.1 ++ [conv], acc.2 ++ [convId now conv])

/-- The dedup loop of the merger over the top-relevant turns, seeded with the
recency set and its identities; the source pushes the surviving turns onto
the `recentHistory` array itself. -/
def mergeDedup (now : Nat) (recent0 top : List ConversationTurn) :
    List ConversationTurn :=
  (top.foldl (dedupStep now) (recent0, recent0.map (convId now))).1

/-- The relevance ranking of the merger: score every history turn (document
`i + 1` of the ephemeral corpus carries measure `scores i`), sort descending
by score with the stable sort, keep the top 8 and return the turns. -/
def topRelevant (hist : List ConversationTurn) (scores : Nat → Int) :
    List ConversationTurn :=
  (((List.insertionSort (fun a b => b.2 ≤ a.2)
      (hist.enum.map (fun p => (p.2, scores p.1)))).take 8).map Prod.fst)

/-- The History Merger (lines 49-112 of the controller): the trailing 5 turns
are the recency seed; when the history is nonempty the top-relevant turns not
already included by identity are pushed onto it, and the merged working set is
a copy sorted ascending by timestamp and truncated to 10.  Returns the pair
`(recentHistory, relevantHistory)` that the code ends up with — note the first
component is the mutated `recentHistory` array. -/
def mergeHistory (hist : List ConversationTurn) (scores : Nat → Int)
    (now : Nat) : List ConversationTurn × List ConversationTurn :=
  let recent0 := sliceLast 5 hist
  if hist.length > 0 then
    let recentHistory := mergeDedup now recent0 (topRelevant hist scores)
    (recentHistory,
     (List.insertionSort (fun a b => tsKey a ≤ tsKey b) recentHistory).take 10)
  else (recent0, [])

/-- First `@(\w+)` mention in the text: the username fallback of the source
`message.match(/@(\w+)/)`. -/
def mentionAt : Text → Option Text
  | [] => none
  | c :: t =>
    if c = '@' then
      let w := t.takeWhile isWordChar
      if w.isEmpty then mentionAt t else some w
    else mentionAt t

/-- The fixed default personality used when the global profile (or its
`botPersonality`) is absent on the main read path. -/
def defaultPersonality : Text := txt "toxic, sassy, and slightly unhinged girlfriend AI"

/-- The personality of the minimal context returned by the catch branch. -/
def fallbackPersonality : Text := txt "friendly and helpful"

/-- Model of `retrieveUserContext` from the source, as a pure function of the store
read results.  `storeFails` is true when some awaited store operation throws,
in which case the catch branch returns the minimal context.  `scores i` is
the TF-IDF measure of history turn `i` against the query (see the module
docstring); the descending relevance sort and the ascending chronological
sort are the stable `insertionSort` with the relation of the comparator. -/
def retrieveUserContext (storeFails : Bool) (userOpt : Option UserProfile)
    (globalOpt : Option GlobalProfile) (message : Text) (scores : Nat → Int)
    (now : Nat) : RetrievalResult :=
  if storeFails then
    { userInfo := ⟨txt "neutral", none, none, none, none⟩
      relevantHistory := []
      recentHistory := []
      botPersonality := some fallbackPersonality
      globalTopics := none
      previousBotMessage := none }
  else
    match userOpt with
    | none =>
      { userInfo := ⟨txt "neutral", none, none, none, none⟩
        relevantHistory := []
        recentHistory := []
        botPersonality := none
        globalTopics := none
        previousBotMessage := none }
    | some userContext =>
      let botPersonality :=
        (globalOpt.bind GlobalProfile.botPersonality).getD defaultPersonality
      let globalTopics := (globalOpt.bind GlobalProfile.recentGlobalTopics).getD []
      let conversationHistory := userContext.conversationHistory
      let previousBotMessage :=
        conversationHistory.getLast?.bind ConversationTurn.response
      let merged := mergeHistory conversationHistory scores now
      let username :=
        match userContext.username with
        | some un => some un
        | none => mentionAt message
      { userInfo :=
          { mood := userContext.mood.getD (txt "neutral")
            username := some (username.getD (txt "User"))
            preferences := some (userContext.preferences.getD ⟨none, none, none⟩)
            lastActive := some (userContext.lastActive.getD now)
            contextTokens := some userContext.contextTokens }
        relevantHistory := merged.2
        recentHistory := merged.1
        botPersonality := some botPersonality
        globalTopics := some (sliceLast 5 globalTopics)
        previousBotMessage := previousBotMessage }

/-- Mongo `$addToSet: { field: { $each: xs } }`: append each element not
already present, preserving order. -/
def addToSet (l xs : List Text) : List Text :=
  xs.foldl (fun acc x => if x ∈ acc then acc else acc ++ [x]) l

/-- The conversation turn `$push`-ed by `updateUserContext`. -/
def pushedTurn (message response : Text) (now : Nat) : ConversationTurn :=
  ⟨some message, some response, some now, extractEntities message⟩

/-- Model of `updateUserContext` from the source, as the stored-profile transition of a
successful write: the atomic upsert (`$set`/`$push`/`$addToSet`) followed by
the retention follow-up write when the resulting history exceeds 50 turns.
The absent-profile upsert case corresponds to passing the all-default
profile. -/
def updateUserContext (p : UserProfile) (username message response : Text)
    (now : Nat) : UserProfile :=
  let extractedEntities := extractEntities message
  let extractedPreferences := extractPreferences message response
  let pushed := p.conversationHistory ++ [pushedTurn message response now]
  let trimmed :=
    if pushed.length > 50 then pushed.take 5 ++ sliceLast 45 pushed else pushed
  { username := some username
    mood := some (detectMood message)
    preferences :=
      if prefHasAny extractedPreferences then some extractedPreferences
      else p.preferences
    contextTokens :=
      if extractedEntities.isEmpty then p.contextTokens
      else addToSet p.contextTokens extractedEntities
    lastBotResponse := some response
    lastActive := some now
    conversationHistory := trimmed }

/-- The deduplicated union of the topics of message and response,
`[...new Set([...messageTopics, ...responseTopics])]`. -/
def allTopics (message response : Text) : List Text :=
  dedupKeepFirst (extractTopics message ++ extractTopics response)

/-- Model of `updateGlobalContext` from the source, as the stored-singleton transition:
`$push` the combined topics with `$slice: -25` (append, then keep the trailing
25), upserting when the singleton is absent. -/
def updateGlobalContext (g : Option GlobalProfile) (message response : Text)
    (now : Nat) : GlobalProfile :=
  let oldTopics := (g.bind GlobalProfile.recentGlobalTopics).getD []
  { botPersonality := g.bind GlobalProfile.botPersonality
    recentGlobalTopics := some (sliceLast 25 (oldTopics ++ allTopics message response))
    lastUpdate := some now }

/-- The category lists actually present in an extracted preferences object. -/
def prefLists (p : Preferences) : List (List Text) :=
  p.likes.toList ++ p.dislikes.toList ++ p.favorites.toList

/-- The timestamp sort key as the claim describes it ("a turn with a missing
timestamp sorts as now"), for comparison with the tsKey of the code. -/
def specTsKey (now : Nat) (t : ConversationTurn) : Nat := t.timestamp.getD now

/-- A minimal turn with only a timestamp, for concrete scenarios. -/
def mkTurn (i : Nat) : ConversationTurn := ⟨none, none, some i, []⟩

/-- A fresh profile holding just the given history, for concrete scenarios. -/
def mkProfile (h : List ConversationTurn) : UserProfile :=
  ⟨none, none, none, [], none, none, h⟩

/-- A 13-turn history with timestamps 1..13. -/
def hist13 : List ConversationTurn := (List.range' 1 13).map mkTurn

/-- A 6-turn history with timestamps 1..6. -/
def hist6 : List ConversationTurn := (List.range' 1 6).map mkTurn

/-- A score assignment making the 8 oldest turns of `hist13` relevant and the
recent turns irrelevant (realizable by TF-IDF: documents sharing a query term
score positively, documents sharing none score 0). -/
def scores13 : Nat → Int := fun i => if i < 8 then 1 else 0

/-- The all-zero score assignment (a query sharing no term with any turn). -/
def zeroScores : Nat → Int := fun _ => 0

/-- A turn duplicated inside the trailing window in the C3 scenario. -/
def dupTurn : ConversationTurn := ⟨some (txt "hi"), some (txt "yo"), some 5, []⟩

/-- A turn with no timestamp, for the C4 scenario. -/
def noTsTurn : ConversationTurn := ⟨some (txt "a"), none, none, []⟩

/-- A turn with timestamp 1000, for the C4 scenario. -/
def tsTurn : ConversationTurn := ⟨some (txt "b"), none, some 1000, []⟩

/-- A profile with a 50-turn history (timestamps 0..49). -/
def prof50 : UserProfile := mkProfile ((List.range 50).map mkTurn)

/-- The 51-turn history resulting from one write on `prof50`. -/
def full51 : List ConversationTurn :=
  prof50.conversationHistory ++ [pushedTurn (txt "ok") (txt "ok") 99]

/-- A 25-topic global window (25 distinct one-letter tags). -/
def window25 : List Text := (List.range 25).map (fun i => [Char.ofNat (65 + i)])

/-- A global profile whose topic window is at capacity 25. -/
def glob25 : GlobalProfile := ⟨none, some window25, none⟩

/-- The C9 witness message, carrying exactly the three topics
relationships / work / school. -/
def topicMsg : Text := txt "love boyfriend job work school class"

/-! Theorems.  Bridge lemmas relating the entry point to the factored merger,
general lemmas about the merger, then one theorem (with counterexample and
witness where applicable) per claim. -/

/-- The `recentHistory` field returned on the main read path is the first
component of the merger. -/
theorem retrieve_recentHistory_eq (u : UserProfile) (g : Option GlobalProfile)
    (m : Text) (scores : Nat → Int) (now : Nat) :
    (retrieveUserContext false (some u) g m scores now).recentHistory =
      (mergeHistory u.conversationHistory scores now).1 := rfl

/-- The `relevantHistory` field returned on the main read path is the second
component of the merger. -/
theorem retrieve_relevantHistory_eq (u : UserProfile) (g : Option GlobalProfile)
    (m : Text) (scores : Nat → Int) (now : Nat) :
    (retrieveUserContext false (some u) g m scores now).relevantHistory =
      (mergeHistory u.conversationHistory scores now).2 := rfl

/-- Claim C2 (code_bug evidence): at a 6-turn history whose oldest turn is
outside the trailing window, the `recentHistory` field of the retrieval
result has 6 entries — the last 5 turns followed by the pushed relevant
turn — and is therefore not the last-5 slice of the stored history. -/
theorem C2_code_evaluation :
    (retrieveUserContext false (some (mkProfile hist6)) none [] zeroScores
        0).recentHistory =
      [mkTurn 2, mkTurn 3, mkTurn 4, mkTurn 5, mkTurn 6, mkTurn 1] ∧
    sliceLast 5 hist6 = [mkTurn 2, mkTurn 3, mkTurn 4, mkTurn 5, mkTurn 6] := by
  constructor <;> decide

/-- Claim C1 counterexample: with 13 turns whose 8 oldest are the
top-relevant ones, turn 11 lies in the trailing 5 of the input but is
truncated out of the merged output (the truncation keeps the 10 earliest by
timestamp). -/
theorem C1_counterexample :
    mkTurn 11 ∈ sliceLast 5 hist13 ∧
    mkTurn 11 ∉ (retrieveUserContext false (some (mkProfile hist13)) none []
        scores13 0).relevantHistory := by
  constructor <;> decide

/-- Claim C3 counterexample: a history consisting of the same turn twice
keeps both copies (the dedup only filters the relevance set against the
recency set), so two output turns share one identity. -/
theorem C3_counterexample :
    ¬ (((retrieveUserContext false (some (mkProfile [dupTurn, dupTurn])) none
          [] zeroScores 0).relevantHistory).map (convId 0)).Nodup := by
  decide

/-- Claim C4 counterexample: with one timestamp-less turn and one turn at
timestamp 1000, at `now = 2000`, the output is not sorted under the claimed
key (missing timestamp = now): the code sorts a missing timestamp as the
epoch, placing that turn first. -/
theorem C4_counterexample :
    ¬ ((retrieveUserContext false (some (mkProfile [noTsTurn, tsTurn])) none
          [] zeroScores 2000).relevantHistory).Pairwise
        (fun a b => specTsKey 2000 a ≤ specTsKey 2000 b) := by
  decide

/-- Claim C5 counterexample: for the 51-turn history after a write on a
50-turn profile, the trimmed stored history is not "the first 5 with the 6
turns immediately after them removed" (that would leave 45 turns, not 50). -/
theorem C5_counterexample :
    (updateUserContext prof50 (txt "u") (txt "ok") (txt "ok")
        99).conversationHistory ≠
      full51.take 5 ++ full51.drop 11 := by
  decide

/-- Claim C6 counterexample: on an absent profile (with the global profile
also absent) the early return carries no personality at all
(`globalPersonality: null`), not the fixed default personality string. -/
theorem C6_counterexample :
    (retrieveUserContext false none none (txt "hello") zeroScores
        0).botPersonality ≠ some defaultPersonality := by
  decide

/-- Claim C5 (amended): when the post-write history exceeds 50 turns it is
trimmed to the first 5 plus the last 45; in particular a write on a 50-turn
history yields a stored history of exactly 50 turns, with the single turn at
index 5 (the one immediately after the first 5) removed. -/
theorem C5_retentionPolicy (p : UserProfile) (un m r : Text) (now : Nat) :
    (50 < p.conversationHistory.length + 1 →
      (updateUserContext p un m r now).conversationHistory =
        (p.conversationHistory ++ [pushedTurn m r now]).take 5 ++
          sliceLast 45 (p.conversationHistory ++ [pushedTurn m r now])) ∧
    (p.conversationHistory.length = 50 →
      (updateUserContext p un m r now).conversationHistory =
        (p.conversationHistory ++ [pushedTurn m r now]).take 5 ++
          (p.conversationHistory ++ [pushedTurn m r now]).drop 6 ∧
      (updateUserContext p un m r now).conversationHistory.length = 50) := by
  have hproj : (updateUserContext p un m r now).conversationHistory =
      (if (p.conversationHistory ++ [pushedTurn m r now]).length > 50 then
        (p.conversationHistory ++ [pushedTurn m r now]).take 5 ++
          sliceLast 45 (p.conversationHistory ++ [pushedTurn m r now])
      else p.conversationHistory ++ [pushedTurn m r now]) := rfl
  have hlen : (p.conversationHistory ++ [pushedTurn m r now]).length =
      p.conversationHistory.length + 1 := by simp
  constructor
  · intro h
    rw [hproj, if_pos (by omega)]
  · intro h50
    have hcond : (p.conversationHistory ++ [pushedTurn m r now]).length > 50 := by
      omega
    have hslice :
        sliceLast 45 (p.conversationHistory ++ [pushedTurn m r now]) =
          (p.conversationHistory ++ [pushedTurn m r now]).drop 6 := by
      unfold sliceLast
      rw [hlen, h50]
    refine ⟨by rw [hproj, if_pos hcond, hslice], ?_⟩
    rw [hproj, if_pos hcond, hslice]
    rw [List.length_append, List.length_take, List.length_drop, hlen, h50]
    omega

/-- Claim C5 witness: one write on the concrete 50-turn profile leaves
exactly 50 stored turns, namely the first 5 and the last 45 of the 51-turn
post-write history. -/
theorem C5_witness :
    (updateUserContext prof50 (txt "u") (txt "ok") (txt "ok")
        99).conversationHistory = full51.take 5 ++ full51.drop 6 ∧
    (updateUserContext prof50 (txt "u") (txt "ok") (txt "ok")
        99).conversationHistory.length = 50 :=
  (C5_retentionPolicy prof50 (txt "u") (txt "ok") (txt "ok") 99).2 (by decide)

/-- Claim C6 (amended): the retrieval entry point is a total function of its
store inputs; on a store failure it returns the minimal default result (mood
neutral, empty histories, personality "friendly and helpful"); on an absent
profile it returns the default result with mood neutral and empty histories
but no personality at all; the fixed default personality string is used on
the main path when the global profile is absent. -/
theorem C6_defaultResults (uOpt : Option UserProfile)
    (gOpt : Option GlobalProfile) (m : Text) (scores : Nat → Int) (now : Nat) :
    retrieveUserContext true uOpt gOpt m scores now =
      ⟨⟨txt "neutral", none, none, none, none⟩, [], [],
        some fallbackPersonality, none, none⟩ ∧
    retrieveUserContext false none gOpt m scores now =
      ⟨⟨txt "neutral", none, none, none, none⟩, [], [], none, none, none⟩ ∧
    (∀ u : UserProfile,
      (retrieveUserContext false (some u) none m scores now).botPersonality =
        some defaultPersonality) :=
  ⟨rfl, rfl, fun _ => rfl⟩

/-- Claim C7: the write path replaces the stored preferences mapping
wholesale with the newly extracted one when the extraction produced any
category, and leaves the stored field untouched when it produced none. -/
theorem C7_preferencesReplace (p : UserProfile) (un m r : Text) (now : Nat) :
    (prefHasAny (extractPreferences m r) = true →
      (updateUserContext p un m r now).preferences =
        some (extractPreferences m r)) ∧
    (prefHasAny (extractPreferences m r) = false →
      (updateUserContext p un m r now).preferences = p.preferences) := by
  constructor <;> intro h <;> simp [updateUserContext, h]

/-- Claim C7 witness: a turn that extracts a preference replaces the stored
mapping, and a turn that extracts none leaves it unchanged. -/
theorem C7_witness :
    (updateUserContext (mkProfile []) (txt "u") (txt "i like cats") (txt "")
        3).preferences = some (extractPreferences (txt "i like cats") (txt "")) ∧
    (updateUserContext (mkProfile []) (txt "u") (txt "hello") (txt "")
        3).preferences = (mkProfile []).preferences :=
  ⟨(C7_preferencesReplace (mkProfile []) (txt "u") (txt "i like cats") (txt "")
      3).1 (by decide),
   (C7_preferencesReplace (mkProfile []) (txt "u") (txt "hello") (txt "")
      3).2 (by decide)⟩

/-- Claim C8: on "I love pizza and miss my dog" the mood detector returns
"affectionate", the preference extraction returns a likes list containing a
captured phrase containing "pizza", and the entity extraction returns the
empty set. -/
theorem C8_scenario :
    detectMood (txt "I love pizza and miss my dog") = txt "affectionate" ∧
    (∃ l, (extractPreferences (txt "I love pizza and miss my dog")
        (txt "")).likes = some l ∧
      ∃ ph ∈ l, hasInfix (txt "pizza") ph = true) ∧
    extractEntities (txt "I love pizza and miss my dog") = [] := by
  refine ⟨by decide, ⟨[txt "pizza"], by decide, txt "pizza", by decide, by decide⟩,
    by decide⟩

/-- Claim C9: every global-aggregator push leaves the topic window at length
at most 25, and a push of 3 new topics onto a window at capacity 25 evicts
exactly the 3 oldest entries, leaving the window at size 25. -/
theorem C9_topicsWindow (g : Option GlobalProfile) (m r : Text) (now : Nat) :
    ((updateGlobalContext g m r now).recentGlobalTopics.getD []).length ≤ 25 ∧
    (((g.bind GlobalProfile.recentGlobalTopics).getD []).length = 25 →
      (allTopics m r).length = 3 →
      (updateGlobalContext g m r now).recentGlobalTopics =
        some (((g.bind GlobalProfile.recentGlobalTopics).getD []).drop 3 ++
          allTopics m r) ∧
      List.length ((updateGlobalContext g m r now).recentGlobalTopics.getD [])
        = 25) := by
  have hproj : (updateGlobalContext g m r now).recentGlobalTopics =
      some (sliceLast 25 (((g.bind GlobalProfile.recentGlobalTopics).getD []) ++
        allTopics m r)) := rfl
  constructor
  · rw [hproj]
    simp only [Option.getD_some, sliceLast, List.length_drop]
    omega
  · intro h25 h3
    have hlen : ((((g.bind GlobalProfile.recentGlobalTopics).getD []) ++
        allTopics m r)).length = 28 := by
      rw [List.length_append, h25, h3]
    have hslice : sliceLast 25 ((((g.bind GlobalProfile.recentGlobalTopics).getD
        []) ++ allTopics m r)) =
        ((g.bind GlobalProfile.recentGlobalTopics).getD []).drop 3 ++
          allTopics m r := by
      unfold sliceLast
      rw [hlen]
      exact List.drop_append_of_le_length (by omega)
    refine ⟨by rw [hproj, hslice], ?_⟩
    rw [hproj, hslice]
    simp only [Option.getD_some, List.length_append, List.length_drop, h25, h3]

/-- Trimming never lengthens a text. -/
theorem trimText_length_le (s : Text) : (trimText s).length ≤ s.length := by
  have h1 : ((s.dropWhile jsSpace).reverse.dropWhile jsSpace).length ≤
      (s.dropWhile jsSpace).reverse.length :=
    (List.dropWhile_sublist _).length_le
  have h2 : (s.dropWhile jsSpace).length ≤ s.length :=
    (List.dropWhile_sublist _).length_le
  simp only [trimText, List.length_reverse] at h1 ⊢
  omega

/-- A successful lazy capture has at most 30 characters (the quantifier is
`{3,30}`). -/
theorem lazyCapture_length {s cap rest : Text}
    (h : lazyCapture s = some (cap, rest)) : cap.length ≤ 30 := by
  unfold lazyCapture at h
  cases hf : (List.range' 3 28).find? (capAt s) with
  | none => rw [hf] at h; exact absurd h (by simp)
  | some n =>
    rw [hf] at h
    have hcap := List.find?_some hf
    have hmem := List.mem_of_find?_eq_some hf
    obtain ⟨i, hi, hni⟩ := List.mem_range'.mp hmem
    simp only [capAt, Bool.and_eq_true, decide_eq_true_eq] at hcap
    have hlen : (s.take n).length = n := hcap.1.1
    have hcapeq : cap = s.take n := by
      cases h
      rfl
    rw [hcapeq, hlen]
    omega

/-- Capture bound for the likes/dislikes pattern matcher. -/
theorem matchSimpleAt_capBound (ps vs : List Text) {s cap rest : Text}
    (h : matchSimpleAt ps vs s = some (cap, rest)) : cap.length ≤ 30 := by
  unfold matchSimpleAt at h
  obtain ⟨r1, _, h⟩ := Option.bind_eq_some.mp h
  obtain ⟨r2, _, h⟩ := Option.bind_eq_some.mp h
  obtain ⟨r3, _, h⟩ := Option.bind_eq_some.mp h
  obtain ⟨r4, _, h⟩ := Option.bind_eq_some.mp h
  exact lazyCapture_length h

/-- A successful `firstSome` comes from some list element. -/
theorem firstSome_eq_some {ns : List Nat} {f : Nat → Option α} {r : α}
    (h : firstSome ns f = some r) : ∃ n ∈ ns, f n = some r := by
  induction ns with
  | nil => simp [firstSome] at h
  | cons n t ih =>
    unfold firstSome at h
    cases hf : f n with
    | some v =>
      rw [hf] at h
      cases h
      exact ⟨n, List.mem_cons_self n t, hf⟩
    | none =>
      rw [hf] at h
      obtain ⟨m, hm, hf2⟩ := ih h
      exact ⟨m, List.mem_cons_of_mem n hm, hf2⟩

/-- Capture bound for the continuation of the favorites pattern: the first
group is exactly `n` characters. -/
theorem favTail_capBound {r2 cap rest : Text} {n : Nat} (hn : n ≤ 30)
    (h : favTail r2 n = some (cap, rest)) : cap.length ≤ 30 := by
  unfold favTail at h
  split at h
  case isTrue hc =>
    simp only [Bool.and_eq_true, decide_eq_true_eq] at hc
    obtain ⟨r3, _, h⟩ := Option.bind_eq_some.mp h
    obtain ⟨r4, _, h⟩ := Option.bind_eq_some.mp h
    obtain ⟨r5, _, h⟩ := Option.bind_eq_some.mp h
    obtain ⟨pr, _, h⟩ := Option.bind_eq_some.mp h
    obtain ⟨c2, rest2⟩ := pr
    cases h
    rw [hc.1]
    exact hn
  case isFalse => exact absurd h (by simp)

/-- Capture bound for the favorites pattern matcher. -/
theorem matchFavAt_capBound {s cap rest : Text}
    (h : matchFavAt s = some (cap, rest)) : cap.length ≤ 30 := by
  unfold matchFavAt at h
  obtain ⟨r1, _, h⟩ := Option.bind_eq_some.mp h
  obtain ⟨r2, _, h⟩ := Option.bind_eq_some.mp h
  obtain ⟨n, hn, hfav⟩ := firstSome_eq_some h
  obtain ⟨i, hi, hni⟩ := List.mem_range'.mp hn
  exact favTail_capBound (by omega) hfav

/-- A successful leftmost match is a successful position match. -/
theorem findMatch_eq_some {mAt : Text → Option (Text × Text)} :
    ∀ {s : Text} {r : Text × Text}, findMatch mAt s = some r →
      ∃ s', mAt s' = some r := by
  intro s
  induction s with
  | nil => intro r h; exact ⟨[], by simpa [findMatch] using h⟩
  | cons c t ih =>
    intro r h
    unfold findMatch at h
    cases hm : mAt (c :: t) with
    | some v =>
      rw [hm] at h
      cases h
      exact ⟨c :: t, hm⟩
    | none =>
      rw [hm] at h
      exact ih h

/-- Every collected capture satisfies the capture bound of the matcher. -/
theorem collectCaptures_capBound {mAt : Text → Option (Text × Text)}
    (hb : ∀ s cap rest, mAt s = some (cap, rest) → cap.length ≤ 30) :
    ∀ (fuel : Nat) (s : Text), ∀ cap ∈ collectCaptures mAt fuel s,
      cap.length ≤ 30 := by
  intro fuel
  induction fuel with
  | zero => intro s cap hc; simp [collectCaptures] at hc
  | succ n ih =>
    intro s cap hc
    unfold collectCaptures at hc
    cases hm : findMatch mAt s with
    | none => rw [hm] at hc; simp at hc
    | some v =>
      obtain ⟨cap0, rest⟩ := v
      rw [hm] at hc
      rcases List.mem_cons.mp hc with h | h
      · obtain ⟨s', hs'⟩ := findMatch_eq_some hm
        exact h ▸ hb s' cap0 rest hs'
      · exact ih rest cap h

/-- Invariant of the capture-push loop: phrase length bounds and no
duplicates are preserved. -/
theorem pushFold_good :
    ∀ (caps : List Text), (∀ cap ∈ caps, cap.length ≤ 30) →
    ∀ acc : List Text, (∀ ph ∈ acc, 3 ≤ ph.length ∧ ph.length ≤ 30) →
      acc.Nodup →
      (∀ ph ∈ caps.foldl pushStep acc, 3 ≤ ph.length ∧ ph.length ≤ 30) ∧
        (caps.foldl pushStep acc).Nodup := by
  intro caps
  induction caps with
  | nil => intro _ acc h1 h2; exact ⟨h1, h2⟩
  | cons cap rest ih =>
    intro hcaps acc h1 h2
    have hrest : ∀ c ∈ rest, c.length ≤ 30 := fun c hc =>
      hcaps c (List.mem_cons_of_mem cap hc)
    have hcap : cap.length ≤ 30 := hcaps cap (List.mem_cons_self cap rest)
    rw [List.foldl_cons]
    simp only [pushStep]
    split
    case isTrue hcond =>
      refine ih hrest (acc ++ [trimText cap]) ?_ ?_
      · intro ph hph
        rcases List.mem_append.mp hph with h | h
        · exact h1 ph h
        · have hpheq : ph = trimText cap := by simpa using h
          subst hpheq
          exact ⟨by have := hcond.2.1; omega,
            le_trans (trimText_length_le cap) hcap⟩
      · exact List.Nodup.append h2 (List.nodup_singleton _)
          (by
            intro a ha hb
            have haeq : a = trimText cap := by simpa using hb
            exact hcond.2.2 (haeq ▸ ha))
    case isFalse => exact ih hrest acc h1 h2

/-- A category list produced by one preference pattern has phrase lengths in
`[3, 30]` and no duplicates. -/
theorem runPrefPattern_good {mAt : Text → Option (Text × Text)}
    (hb : ∀ s cap rest, mAt s = some (cap, rest) → cap.length ≤ 30)
    (s : Text) (l : List Text) (h : runPrefPattern mAt s = some l) :
    (∀ ph ∈ l, 3 ≤ ph.length ∧ ph.length ≤ 30) ∧ l.Nodup := by
  unfold runPrefPattern at h
  cases hcol : collectCaptures mAt (s.length + 1) s with
  | nil => rw [hcol] at h; exact absurd h (by simp)
  | cons c rest =>
    rw [hcol] at h
    cases h
    have hcaps : ∀ cap ∈ (c :: rest), cap.length ≤ 30 := by
      intro cap hc
      exact collectCaptures_capBound hb (s.length + 1) s cap (hcol ▸ hc)
    exact pushFold_good (c :: rest) hcaps [] (by simp) (by simp)

/-- Claim C10: every phrase in the preference-extraction output has length
between 3 and 30 characters inclusive, and no phrase appears twice within
the list of any one category. -/
theorem C10_phraseBounds (m r : Text) :
    ∀ l ∈ prefLists (extractPreferences m r),
      (∀ ph ∈ l, 3 ≤ ph.length ∧ ph.length ≤ 30) ∧ l.Nodup := by
  intro l hl
  have hlikes : (extractPreferences m r).likes =
      runPrefPattern (matchSimpleAt pronounAlts likeVerbs)
        (lowerTxt (m ++ [' '] ++ r)) := rfl
  have hdis : (extractPreferences m r).dislikes =
      runPrefPattern (matchSimpleAt pronounAlts dislikeVerbs)
        (lowerTxt (m ++ [' '] ++ r)) := rfl
  have hfav : (extractPreferences m r).favorites =
      runPrefPattern matchFavAt (lowerTxt (m ++ [' '] ++ r)) := rfl
  unfold prefLists at hl
  rcases List.mem_append.mp hl with h12 | h3
  · rcases List.mem_append.mp h12 with h1 | h2
    · have hsome : (extractPreferences m r).likes = some l := by
        simpa using h1
      exact runPrefPattern_good
        (fun s cap rest h => matchSimpleAt_capBound pronounAlts likeVerbs h)
        (lowerTxt (m ++ [' '] ++ r)) l (by rw [← hlikes]; exact hsome)
    · have hsome : (extractPreferences m r).dislikes = some l := by
        simpa using h2
      exact runPrefPattern_good
        (fun s cap rest h => matchSimpleAt_capBound pronounAlts dislikeVerbs h)
        (lowerTxt (m ++ [' '] ++ r)) l (by rw [← hdis]; exact hsome)
  · have hsome : (extractPreferences m r).favorites = some l := by
      simpa using h3
    exact runPrefPattern_good
      (fun s cap rest h => matchFavAt_capBound h)
      (lowerTxt (m ++ [' '] ++ r)) l (by rw [← hfav]; exact hsome)

/-- Claim C10 witness: the concrete extraction on "i like cats" yields the
category list `["cats"]`, whose phrase bounds and freedom from duplicates
follow from the theorem. -/
theorem C10_witness :
    (∀ ph ∈ [txt "cats"], 3 ≤ ph.length ∧ ph.length ≤ 30) ∧
      ([txt "cats"] : List Text).Nodup :=
  C10_phraseBounds (txt "i like cats") (txt "") [txt "cats"] (by decide)

/-- Claim C9 witness: pushing the three topics of the concrete message onto
the concrete 25-entry window evicts exactly the 3 oldest tags and leaves 25. -/
theorem C9_witness :
    (updateGlobalContext (some glob25) topicMsg (txt "") 7).recentGlobalTopics =
      some (window25.drop 3 ++ allTopics topicMsg (txt "")) ∧
    ((updateGlobalContext (some glob25) topicMsg (txt "")
        7).recentGlobalTopics.getD []).length = 25 :=
  (C9_topicsWindow (some glob25) topicMsg (txt "") 7).2 (by decide) (by decide)

/-- Specification of the dedup loop of the merger: starting from a seed whose
identity list is exactly its image under `convId`, the loop appends a block
of turns drawn from the relevance list, none of whose identities occur in the
seed, with pairwise distinct identities. -/
theorem dedupFold_spec (now : Nat) (top : List ConversationTurn) :
    ∀ a : List ConversationTurn,
      ∃ s : List ConversationTurn,
        (top.foldl (dedupStep now) (a, a.map (convId now))).1 = a ++ s ∧
        (∀ x ∈ s, x ∈ top ∧ convId now x ∉ a.map (convId now)) ∧
        (s.map (convId now)).Nodup := by
  induction top with
  | nil =>
    intro a
    exact ⟨[], by simp, by simp, by simp⟩
  | cons conv rest ih =>
    intro a
    rw [List.foldl_cons]
    by_cases hmem : convId now conv ∈ a.map (convId now)
    · have hstep : dedupStep now (a, a.map (convId now)) conv =
          (a, a.map (convId now)) := by
        simp [dedupStep, hmem]
      rw [hstep]
      obtain ⟨s, h1, h2, h3⟩ := ih a
      exact ⟨s, h1,
        fun x hx => ⟨List.mem_cons_of_mem conv (h2 x hx).1, (h2 x hx).2⟩, h3⟩
    · have hstep : dedupStep now (a, a.map (convId now)) conv =
          (a ++ [conv], (a ++ [conv]).map (convId now)) := by
        simp [dedupStep, hmem]
      rw [hstep]
      obtain ⟨s, h1, h2, h3⟩ := ih (a ++ [conv])
      refine ⟨conv :: s, ?_, ?_, ?_⟩
      · rw [h1]
        simp
      · intro x hx
        rcases List.mem_cons.mp hx with h | h
        · subst h
          exact ⟨List.mem_cons_self _ _, hmem⟩
        · obtain ⟨hxt, hxid⟩ := h2 x h
          refine ⟨List.mem_cons_of_mem conv hxt, fun hc => hxid ?_⟩
          rw [List.map_append]
          exact List.mem_append_left _ hc
      · rw [List.map_cons]
        refine List.nodup_cons.mpr ⟨?_, h3⟩
        intro hc
        obtain ⟨x, hxs, hxeq⟩ := List.mem_map.mp hc
        apply (h2 x hxs).2
        rw [List.map_append]
        exact List.mem_append_right _ (by simp [hxeq])

/-- Specification of `mergeDedup` (see `dedupFold_spec`). -/
theorem mergeDedup_spec (now : Nat) (recent0 top : List ConversationTurn) :
    ∃ s, mergeDedup now recent0 top = recent0 ++ s ∧
      (∀ x ∈ s, x ∈ top ∧ convId now x ∉ recent0.map (convId now)) ∧
      (s.map (convId now)).Nodup :=
  dedupFold_spec now top recent0

/-- Every top-relevant turn is a turn of the history. -/
theorem topRelevant_subset (hist : List ConversationTurn) (scores : Nat → Int) :
    ∀ x ∈ topRelevant hist scores, x ∈ hist := by
  intro x hx
  unfold topRelevant at hx
  obtain ⟨p, hp, hpx⟩ := List.mem_map.mp hx
  have hp2 : p ∈ List.insertionSort (fun a b => b.2 ≤ a.2)
      (hist.enum.map (fun q => (q.2, scores q.1))) := List.mem_of_mem_take hp
  have hp3 : p ∈ hist.enum.map (fun q => (q.2, scores q.1)) :=
    (List.mem_insertionSort _).mp hp2
  obtain ⟨q, hq, hqp⟩ := List.mem_map.mp hp3
  have hq2 : q.2 ∈ List.map Prod.snd hist.enum := List.mem_map_of_mem Prod.snd hq
  rw [List.enum_map_snd] at hq2
  have hx1 : p.1 = q.2 := by rw [← hqp]
  rw [← hpx, hx1]
  exact hq2

/-- The identity list of the merged `recentHistory` array stays
duplicate-free when the identity list of the recency seed is. -/
theorem mergeDedup_nodup (now : Nat) (recent0 top : List ConversationTurn)
    (hnd : (recent0.map (convId now)).Nodup) :
    ((mergeDedup now recent0 top).map (convId now)).Nodup := by
  obtain ⟨s, h1, h2, h3⟩ := mergeDedup_spec now recent0 top
  rw [h1, List.map_append]
  refine List.Nodup.append hnd h3 ?_
  intro idv hmem1 hmem2
  obtain ⟨x, hxs, hxe⟩ := List.mem_map.mp hmem2
  exact (h2 x hxs).2 (hxe ▸ hmem1)

/-- Length bound on the merged `recentHistory` array: it never exceeds the
history length (the appended block consists of distinct history turns outside
the recency slice). -/
theorem mergeDedup_length_le (hist : List ConversationTurn)
    (scores : Nat → Int) (now : Nat) :
    (mergeDedup now (sliceLast 5 hist) (topRelevant hist scores)).length ≤
      hist.length := by
  obtain ⟨s, h1, h2, h3⟩ :=
    mergeDedup_spec now (sliceLast 5 hist) (topRelevant hist scores)
  have hsnd : s.Nodup := List.Nodup.of_map (convId now) h3
  have hsub : s ⊆ hist.take (hist.length - 5) := by
    intro x hx
    obtain ⟨hxt, hxid⟩ := h2 x hx
    have hxh : x ∈ hist := topRelevant_subset hist scores x hxt
    have hsplit : hist.take (hist.length - 5) ++ sliceLast 5 hist = hist :=
      List.take_append_drop _ _
    rw [← hsplit] at hxh
    rcases List.mem_append.mp hxh with h | h
    · exact h
    · exact absurd (List.mem_map_of_mem (convId now) h) hxid
  have hslen : s.length ≤ (hist.take (hist.length - 5)).length :=
    (hsnd.subperm hsub).length_le
  have hparts : (hist.take (hist.length - 5)).length +
      (sliceLast 5 hist).length = hist.length := by
    simp only [sliceLast, List.length_take, List.length_drop]
    omega
  rw [h1, List.length_append]
  omega

/-- Claim C1 (amended): every turn in the trailing 5 of the input history
appears in the merged output whenever the history holds at most `MAX_TOTAL`
(10) turns (the truncation of the chronologically sorted merge keeps the 10
earliest turns, so with more candidates the most recent turns can be cut). -/
theorem C1_recencyGuarantee (u : UserProfile) (g : Option GlobalProfile)
    (m : Text) (scores : Nat → Int) (now : Nat)
    (hlen : u.conversationHistory.length ≤ 10) :
    ∀ t ∈ sliceLast 5 u.conversationHistory,
      t ∈ (retrieveUserContext false (some u) g m scores now).relevantHistory := by
  intro t ht
  rw [retrieve_relevantHistory_eq]
  simp only [mergeHistory]
  split
  case isTrue h0 =>
    have hmem : t ∈ mergeDedup now (sliceLast 5 u.conversationHistory)
        (topRelevant u.conversationHistory scores) := by
      obtain ⟨s, h1, _, _⟩ := mergeDedup_spec now
        (sliceLast 5 u.conversationHistory)
        (topRelevant u.conversationHistory scores)
      rw [h1]
      exact List.mem_append_left _ ht
    have hmem2 : t ∈ List.insertionSort (fun a b => tsKey a ≤ tsKey b)
        (mergeDedup now (sliceLast 5 u.conversationHistory)
          (topRelevant u.conversationHistory scores)) :=
      (List.mem_insertionSort _).mpr hmem
    rw [List.take_of_length_le ?_]
    · exact hmem2
    · rw [(List.perm_insertionSort _ _).length_eq]
      exact le_trans (mergeDedup_length_le u.conversationHistory scores now) hlen
  case isFalse h0 =>
    have hnil : u.conversationHistory = [] :=
      List.length_eq_zero.mp (by omega)
    rw [hnil] at ht
    simp [sliceLast] at ht

/-- Claim C1 witness: in a 6-turn history the turn at timestamp 2 lies in the
trailing window and appears in the merged output. -/
theorem C1_witness :
    mkTurn 2 ∈ (retrieveUserContext false (some (mkProfile hist6)) none []
      zeroScores 0).relevantHistory :=
  C1_recencyGuarantee (mkProfile hist6) none [] zeroScores 0 (by decide)
    (mkTurn 2) (by decide)

/-- Claim C3 (amended): when the trailing-5 turns of the input history have
pairwise distinct identities, no two turns of the merged output share an
identity (the dedup of the code only filters the relevance set against the recency
set, so duplicates inside the trailing window must be excluded). -/
theorem C3_dedupGuarantee (u : UserProfile) (g : Option GlobalProfile)
    (m : Text) (scores : Nat → Int) (now : Nat)
    (hnd : ((sliceLast 5 u.conversationHistory).map (convId now)).Nodup) :
    (((retrieveUserContext false (some u) g m scores
      now).relevantHistory).map (convId now)).Nodup := by
  rw [retrieve_relevantHistory_eq]
  simp only [mergeHistory]
  split
  case isTrue h0 =>
    have hrfnd := mergeDedup_nodup now (sliceLast 5 u.conversationHistory)
      (topRelevant u.conversationHistory scores) hnd
    have hperm : ((List.insertionSort (fun a b => tsKey a ≤ tsKey b)
        (mergeDedup now (sliceLast 5 u.conversationHistory)
          (topRelevant u.conversationHistory scores))).map (convId now)).Perm
        ((mergeDedup now (sliceLast 5 u.conversationHistory)
          (topRelevant u.conversationHistory scores)).map (convId now)) :=
      (List.perm_insertionSort _ _).map _
    have hnd2 := hperm.nodup_iff.mpr hrfnd
    exact List.Nodup.sublist ((List.take_sublist _ _).map _) hnd2
  case isFalse h0 =>
    simp

/-- Claim C3 witness: the 6-turn history has distinct identities in its
trailing window, and the identity list of the merged output is duplicate-free. -/
theorem C3_witness :
    (((retrieveUserContext false (some (mkProfile hist6)) none [] zeroScores
      0).relevantHistory).map (convId 0)).Nodup :=
  C3_dedupGuarantee (mkProfile hist6) none [] zeroScores 0 (by decide)

/-- Claim C4 (amended): the merged output never exceeds `MAX_TOTAL` (10)
turns and is sorted non-decreasing by timestamp under the key of the code, which
sorts a missing timestamp as the epoch (`new Date(a.timestamp || 0)`), not as
the current instant. -/
theorem C4_boundedSorted (u : UserProfile) (g : Option GlobalProfile)
    (m : Text) (scores : Nat → Int) (now : Nat) :
    (retrieveUserContext false (some u) g m scores
      now).relevantHistory.length ≤ 10 ∧
    ((retrieveUserContext false (some u) g m scores
      now).relevantHistory).Pairwise (fun a b => tsKey a ≤ tsKey b) := by
  rw [retrieve_relevantHistory_eq]
  simp only [mergeHistory]
  split
  case isTrue h0 =>
    constructor
    · exact List.length_take_le _ _
    · haveI hto : IsTotal ConversationTurn (fun a b => tsKey a ≤ tsKey b) :=
        ⟨fun a b => Nat.le_total _ _⟩
      haveI htr : IsTrans ConversationTurn (fun a b => tsKey a ≤ tsKey b) :=
        ⟨fun _ _ _ => Nat.le_trans⟩
      have hs := List.sorted_insertionSort (fun a b => tsKey a ≤ tsKey b)
        (mergeDedup now (sliceLast 5 u.conversationHistory)
          (topRelevant u.conversationHistory scores))
      exact hs.sublist (List.take_sublist _ _)
  case isFalse h0 =>
    simp

end Sakura
